import Mathlib

/-!
Verification development for the `skillctl` skill-pool manager.

We give a shallow embedding of the core algorithms of the repository:

* `scanner.py` — `parse_frontmatter`, content hashing (the SHA-256 function is
  taken as a parameter `hash : String → String`; the code only ever compares
  digests for equality);
* `promote.py` — `_slugify`, `_resolve_skill_dir`, `promote_skill`;
* `tracking.py` — `_slugify`, `_load_prev_items`, diff computation of
  `check_tracked_source`, `add_tracked_source`, `remove_tracked_source`;
* `indexing.py` — `_select_items`;
* `syncer.py` — the platform filtering and installer command construction of
  `run_sync`;
* `web.py` — `_skill_key`, `_pool_skill_hash_index`, `_detect_unmanaged_reason`,
  `_sanitize_skill_ids`, the prune forcing of `_do_sync`, `_append_job_log` and
  `_job_snapshot`.

File contents are modelled as `String`, directory trees as the inductive
`FsNode`, and Python exceptions as the `Except` monad.  String helpers are
implemented on `List Char` so that every definition evaluates by kernel
reduction.
-/

/-! ### Character and string helpers (Python `str` operations) -/

/-- Python `str.strip()` whitespace test (ASCII subset). -/
def isPyWs (c : Char) : Bool :=
  c == ' ' || c == '\t' || c == '\n' || c == '\r'

/-- Strip characters satisfying `p` from both ends of a character list. -/
def stripWhile (p : Char → Bool) (l : List Char) : List Char :=
  ((l.dropWhile p).reverse.dropWhile p).reverse

/-- Python `str.strip()` on a character list. -/
def pyStripList (l : List Char) : List Char := stripWhile isPyWs l

/-- Python `str.strip()`. -/
def pyStrip (s : String) : String := ⟨pyStripList s.data⟩

/-- ASCII lower-casing of one character (Python `str.lower()` on ASCII). -/
def asciiLower (c : Char) : Char :=
  if 65 ≤ c.toNat && c.toNat ≤ 90 then Char.ofNat (c.toNat + 32) else c

/-- Python `str.lower()` (ASCII fragment). -/
def pyLower (s : String) : String := ⟨s.data.map asciiLower⟩

/-- Split a character list at every occurrence of `sep`
(Python `str.split(sep)` semantics: `"" ↦ [""]`, separators kept as gaps). -/
def splitOnChar (sep : Char) : List Char → List (List Char)
  | [] => [[]]
  | c :: rest =>
    let r := splitOnChar sep rest
    if c == sep then [] :: r
    else
      match r with
      | h :: t => (c :: h) :: t
      | [] => [[c]]

/-- Split at the first occurrence of `sep` (Python `str.split(sep, 1)` when it
matches); `none` when `sep` does not occur. -/
def splitFirstAtChar (sep : Char) : List Char → Option (List Char × List Char)
  | [] => none
  | c :: rest =>
    if c == sep then some ([], rest)
    else
      match splitFirstAtChar sep rest with
      | some (a, b) => some (c :: a, b)
      | none => none

/-- `listStartsWith l p` holds when `p` is an initial segment of `l`
(Python `str.startswith`). -/
def listStartsWith : List Char → List Char → Bool
  | _, [] => true
  | [], _ :: _ => false
  | c :: l, d :: p => c == d && listStartsWith l p

/-- Comma-join a list of strings (Python `",".join`). -/
def commaJoin : List String → String
  | [] => ""
  | [x] => x
  | x :: rest => x ++ "," ++ commaJoin rest

/-! ### `scanner.parse_frontmatter`

`parse_frontmatter` reads the `---`-delimited header of a manifest and
extracts the `name:` and `description:` scalars.  We model the file's text
directly; an unreadable file is represented by the caller passing no content.
Lines are obtained by splitting at `'\n'`. -/

/-- Quote characters stripped from header values (Python `.strip("\"'")`). -/
def isQuoteChar (c : Char) : Bool := c == '"' || c == Char.ofNat 39

/-- Python `value.strip().strip("\"'")`. -/
def stripValue (l : List Char) : List Char :=
  stripWhile isQuoteChar (pyStripList l)

/-- Index of the first line (in the given list) whose stripped form is `---`. -/
def findHeaderEnd : List (List Char) → Option Nat
  | [] => none
  | l :: rest =>
    if pyStripList l == ['-', '-', '-'] then some 0
    else (findHeaderEnd rest).map (· + 1)

/-- Process the header lines, recognising `name:` and `description:` keys
(case-insensitive key, quoted or bare value); later occurrences win, other
keys and colon-free lines are ignored. -/
def frontmatterFold (lines : List (List Char)) :
    Option String × Option String :=
  lines.foldl
    (fun acc line =>
      match splitFirstAtChar ':' line with
      | none => acc
      | some (k, v) =>
        let key := (pyStripList k).map asciiLower
        let value : String := ⟨stripValue v⟩
        if key == ['n', 'a', 'm', 'e'] then (some value, acc.2)
        else if key == ['d', 'e', 's', 'c', 'r', 'i', 'p', 't', 'i', 'o', 'n'] then
          (acc.1, some value)
        else acc)
    (none, none)

/-- `scanner.parse_frontmatter` on the text of a manifest file. -/
def parse_frontmatter (text : String) : Option String × Option String :=
  if ¬ listStartsWith text.data ['-', '-', '-'] then (none, none)
  else
    match splitOnChar '\n' text.data with
    | [] => (none, none)
    | l0 :: rest =>
      if ¬ (pyStripList l0 == ['-', '-', '-']) then (none, none)
      else
        match findHeaderEnd rest with
        | none => (none, none)
        | some k => frontmatterFold (rest.take k)

/-! ### Slugs and identity keys

`web._skill_key`, `promote._slugify` and `tracking._slugify` share one body:
lowercase, collapse runs of characters outside `[a-z0-9_-]` to a single `-`,
trim dashes; they differ only in the fallback for an empty result. -/

/-- Characters kept by the slug regexes (`[a-z0-9_-]` after lowering). -/
def goodKeyChar (c : Char) : Bool :=
  (97 ≤ c.toNat && c.toNat ≤ 122) || (48 ≤ c.toNat && c.toNat ≤ 57) ||
    c == '_' || c == '-'

/-- Collapse every run of two or more `-` into a single `-`
(the `re.sub(r"-{2,}", "-", ·)` step). -/
def collapseDashes : List Char → List Char
  | [] => []
  | c :: rest =>
    let r := collapseDashes rest
    if c == '-' then
      match r with
      | '-' :: _ => r
      | _ => c :: r
    else c :: r

/-- `web._skill_key`: strip, lowercase, replace runs of other characters by
`-`, collapse, trim `-` (empty result allowed). -/
def _skill_key (raw : String) : String :=
  let lowered := (pyStripList raw.data).map asciiLower
  let replaced := lowered.map (fun c => if goodKeyChar c then c else '-')
  ⟨stripWhile (· == '-') (collapseDashes replaced)⟩

/-- `promote._slugify`: `_skill_key` with fallback `"unnamed-skill"`. -/
def promoteSlugify (name : String) : String :=
  if _skill_key name = "" then "unnamed-skill" else _skill_key name

/-- `tracking._slugify`: same computation with fallback `"tracked-source"`
(its `[^a-zA-Z0-9_-]` class is applied to already-lowercased text, so it
coincides with `_skill_key`). -/
def trackingSlugify (raw : String) : String :=
  if _skill_key raw = "" then "tracked-source" else _skill_key raw

example : _skill_key "  Skill  A! " = "skill-a" := by decide
example : promoteSlugify "???" = "unnamed-skill" := by decide
example : parse_frontmatter "---\nname: \"Skill A\"\ndescription: d\n---\nbody"
    = (some "Skill A", some "d") := by decide
example : parse_frontmatter "no header" = (none, none) := by decide

/-! ### Decimal representation: injectivity of `Nat.repr`

`tracking.add_tracked_source` de-duplicates ids with suffixes built by
`f"{base_id}-{idx}"`; to show its `while` loop always reaches a fresh id we
need that distinct indices yield distinct decimal strings. -/

/-- Value of a decimal digit character. -/
def decDigitVal (c : Char) : Nat := c.toNat - 48

/-- Read a most-significant-first digit list back into a number. -/
def decodeDigits (l : List Char) : Nat :=
  l.foldl (fun a c => a * 10 + decDigitVal c) 0

theorem toDigitsCore_eq_append (n : Nat) : ∀ (fuel : Nat) (ds : List Char),
    0 < fuel → n < 10 ^ fuel →
    Nat.toDigitsCore 10 fuel n ds = Nat.toDigitsCore 10 (n + 1) n [] ++ ds := by
  induction n using Nat.strong_induction_on with
  | _ n ih =>
    intro fuel ds hf hlt
    match fuel, hf with
    | f + 1, _ =>
      by_cases h : n / 10 = 0
      · simp [Nat.toDigitsCore, h]
      · have hn10 : 10 ≤ n := by
          rcases Nat.lt_or_ge n 10 with hlt10 | hge
          · exact absurd (Nat.div_eq_of_lt hlt10) h
          · exact hge
        have hnpos : 0 < n := lt_of_lt_of_le (by norm_num) hn10
        have hdivlt : n / 10 < n := Nat.div_lt_self hnpos (by norm_num)
        have hfpos : 0 < f := by
          by_contra hc
          have hf0 : f = 0 := by omega
          subst hf0
          simp at hlt
          omega
        have hdivpow : n / 10 < 10 ^ f := by
          have := (Nat.div_lt_iff_lt_mul (by norm_num : 0 < 10)).mpr
            (by rw [← pow_succ] ; exact hlt)
          exact this
        have hdivpow' : n / 10 < 10 ^ n := lt_of_le_of_lt (Nat.div_le_self n 10)
          (Nat.lt_pow_self (by norm_num) n)
        have h1 := ih (n / 10) hdivlt f (Nat.digitChar (n % 10) :: ds) hfpos hdivpow
        have h2 := ih (n / 10) hdivlt n [Nat.digitChar (n % 10)] hnpos hdivpow'
        calc Nat.toDigitsCore 10 (f + 1) n ds
            = Nat.toDigitsCore 10 f (n / 10) (Nat.digitChar (n % 10) :: ds) := by
              simp [Nat.toDigitsCore, h]
          _ = Nat.toDigitsCore 10 (n / 10 + 1) (n / 10) [] ++
                (Nat.digitChar (n % 10) :: ds) := h1
          _ = (Nat.toDigitsCore 10 (n / 10 + 1) (n / 10) [] ++
                [Nat.digitChar (n % 10)]) ++ ds := by
              rw [List.append_assoc]
              rfl
          _ = Nat.toDigitsCore 10 n (n / 10) [Nat.digitChar (n % 10)] ++ ds := by
              rw [h2]
          _ = Nat.toDigitsCore 10 (n + 1) n [] ++ ds := by
              have : Nat.toDigitsCore 10 (n + 1) n [] =
                  Nat.toDigitsCore 10 n (n / 10) [Nat.digitChar (n % 10)] := by
                simp [Nat.toDigitsCore, h]
              rw [this]

theorem toDigits_lt_ten {n : Nat} (h : n < 10) :
    Nat.toDigits 10 n = [Nat.digitChar n] := by
  have h0 : n / 10 = 0 := Nat.div_eq_of_lt h
  have hm : n % 10 = n := Nat.mod_eq_of_lt h
  simp [Nat.toDigits, Nat.toDigitsCore, h0, hm]

theorem toDigits_ge_ten {n : Nat} (h : 10 ≤ n) :
    Nat.toDigits 10 n = Nat.toDigits 10 (n / 10) ++ [Nat.digitChar (n % 10)] := by
  have h0 : ¬ n / 10 = 0 := by
    intro hc
    have := Nat.div_eq_of_lt (show n < 10 by omega)
    omega
  have hnpos : 0 < n := by omega
  have hdivpow : n / 10 < 10 ^ n := lt_of_le_of_lt (Nat.div_le_self n 10)
    (Nat.lt_pow_self (by norm_num) n)
  have step : Nat.toDigits 10 n =
      Nat.toDigitsCore 10 n (n / 10) [Nat.digitChar (n % 10)] := by
    simp [Nat.toDigits, Nat.toDigitsCore, h0]
  rw [step, toDigitsCore_eq_append (n / 10) n [Nat.digitChar (n % 10)] hnpos hdivpow]
  rfl

theorem decDigitVal_digitChar {n : Nat} (h : n < 10) :
    decDigitVal (Nat.digitChar n) = n := by
  interval_cases n <;> rfl

theorem decodeDigits_append_digit (l : List Char) (c : Char) :
    decodeDigits (l ++ [c]) = decodeDigits l * 10 + decDigitVal c := by
  simp [decodeDigits, List.foldl_append]

theorem decodeDigits_toDigits (n : Nat) :
    decodeDigits (Nat.toDigits 10 n) = n := by
  induction n using Nat.strong_induction_on with
  | _ n ih =>
    by_cases h : n < 10
    · rw [toDigits_lt_ten h]
      simp [decodeDigits, decDigitVal_digitChar h]
    · have h10 : 10 ≤ n := by omega
      have hdivlt : n / 10 < n := Nat.div_lt_self (by omega) (by norm_num)
      rw [toDigits_ge_ten h10, decodeDigits_append_digit, ih (n / 10) hdivlt,
        decDigitVal_digitChar (Nat.mod_lt n (by norm_num))]
      omega

theorem natRepr_injective : Function.Injective Nat.repr := by
  intro m n h
  have hdata : Nat.toDigits 10 m = Nat.toDigits 10 n := congrArg String.data h
  have := congrArg decodeDigits hdata
  rwa [decodeDigits_toDigits, decodeDigits_toDigits] at this

/-! ### `tracking.py`: tracked-source registry

`config.TrackedSource` rows live in `cfg.tracked_sources`; we model the list
of rows directly.  `add_tracked_source` slugifies the agent id, derives a base
id, bumps a numeric suffix while the id collides, and appends the row;
`remove_tracked_source` deletes the first row with the given id. -/

structure TrackedSource where
  id : String
  agent_id : String
  name : String
  source : String
  enabled : Bool
  note : String
deriving DecidableEq

/-- Python's `a or b` for an optional string (`None` and `""` are falsy). -/
def pyOrStr (a : Option String) (b : String) : String :=
  match a with
  | some s => if s = "" then b else s
  | none => b

/-- The body of the `while sid in existing` loop of `add_tracked_source`,
trying `base-idx`, `base-(idx+1)`, … .  The fuel is only a termination
device: `dedupId` supplies enough fuel for the loop to exit (see
`dedupIdAux_not_mem`), so the fuel-0 branch is never reached. -/
def dedupIdAux (base : String) (existing : List String) : Nat → Nat → String
  | _, 0 => base
  | idx, fuel + 1 =>
    let cand := base ++ "-" ++ Nat.repr idx
    if cand ∈ existing then dedupIdAux base existing (idx + 1) fuel else cand

/-- Id de-duplication of `add_tracked_source`: `sid = base_id`, then numeric
suffixes `-2`, `-3`, … while the id is taken. -/
def dedupId (base : String) (existing : List String) : String :=
  if base ∈ existing then dedupIdAux base existing 2 (existing.length + 1)
  else base

/-- `tracking.add_tracked_source`.  The `ValueError` branch mirrors the
source's `if not aid: raise ValueError(...)` check. -/
def add_tracked_source (rows : List TrackedSource)
    (agent_id name source : String) (source_id : Option String)
    (enabled : Bool) (note : String) :
    Except String (TrackedSource × List TrackedSource) :=
  let aid := trackingSlugify agent_id
  if aid = "" then .error "agent_id 不能为空。"
  else
    let base_id := trackingSlugify (pyOrStr source_id (aid ++ "-" ++ name))
    let sid := dedupId base_id (rows.map (·.id))
    let row : TrackedSource :=
      { id := sid, agent_id := aid, name := pyStrip name,
        source := pyStrip source, enabled := enabled, note := pyStrip note }
    .ok (row, rows ++ [row])

/-- Delete the first row whose `id` equals `key`
(the `del cfg.tracked_sources[idx]` of `remove_tracked_source`). -/
def removeFirstById (key : String) : List TrackedSource → Bool × List TrackedSource
  | [] => (false, [])
  | r :: rest =>
    if r.id = key then (true, rest)
    else
      let p := removeFirstById key rest
      (p.1, r :: p.2)

/-- `tracking.remove_tracked_source`: lookup by lower-cased stripped id. -/
def remove_tracked_source (rows : List TrackedSource) (source_id : String) :
    Bool × List TrackedSource :=
  removeFirstById (pyLower (pyStrip source_id)) rows

/-- One registry mutation: the `add` / `remove` operations of the tracked
source CRUD. -/
inductive TrackOp where
  | add (agent_id name source : String) (source_id : Option String)
      (enabled : Bool) (note : String)
  | remove (source_id : String)

/-- Apply one operation to the rows (a failing `add` leaves them unchanged). -/
def applyTrackOp (rows : List TrackedSource) : TrackOp → List TrackedSource
  | .add a n s sid e note =>
    match add_tracked_source rows a n s sid e note with
    | .ok p => p.2
    | .error _ => rows
  | .remove sid => (remove_tracked_source rows sid).2

/-! Freshness of the de-duplicated id: among `existing.length + 1` candidate
suffixes one must be unused, because distinct indices give distinct ids. -/

theorem candId_injective (base : String) :
    Function.Injective (fun i : Nat => base ++ "-" ++ Nat.repr i) := by
  intro i j h
  simp only at h
  have hdata := congrArg String.data h
  simp only [String.data_append] at hdata
  have hrepr : (Nat.repr i).data = (Nat.repr j).data := List.append_cancel_left hdata
  refine natRepr_injective ?_
  cases hri : Nat.repr i with
  | mk di =>
    cases hrj : Nat.repr j with
    | mk dj =>
      rw [hri, hrj] at hrepr
      simp only [String.data] at hrepr
      exact congrArg String.mk hrepr

theorem dedupIdAux_not_mem (base : String) (existing : List String) :
    ∀ (fuel idx : Nat),
      (∃ j, idx ≤ j ∧ j < idx + fuel ∧ (base ++ "-" ++ Nat.repr j) ∉ existing) →
      dedupIdAux base existing idx fuel ∉ existing := by
  intro fuel
  induction fuel with
  | zero =>
    intro idx ⟨j, h1, h2, _⟩
    omega
  | succ f ihf =>
    intro idx hex
    by_cases h : (base ++ "-" ++ Nat.repr idx) ∈ existing
    · have hstep : dedupIdAux base existing idx (f + 1) =
          dedupIdAux base existing (idx + 1) f := by
        simp [dedupIdAux, h]
      rw [hstep]
      apply ihf
      obtain ⟨j, h1, h2, h3⟩ := hex
      refine ⟨j, ?_, by omega, h3⟩
      rcases Nat.eq_or_lt_of_le h1 with rfl | hlt
      · exact absurd h h3
      · omega
    · simp [dedupIdAux, h]

theorem exists_fresh_candidate (base : String) (existing : List String) :
    ∃ j, 2 ≤ j ∧ j < 2 + (existing.length + 1) ∧
      (base ++ "-" ++ Nat.repr j) ∉ existing := by
  by_contra hall
  push_neg at hall
  set L : List String :=
    (List.range' 2 (existing.length + 1)).map (fun i => base ++ "-" ++ Nat.repr i) with hL
  have hnodupL : L.Nodup := by
    refine List.Nodup.map (candId_injective base) ?_
    exact List.nodup_range' 2 (existing.length + 1)
  have hsub : L.toFinset ⊆ existing.toFinset := by
    intro x hx
    rw [List.mem_toFinset] at hx ⊢
    rw [hL, List.mem_map] at hx
    obtain ⟨i, hi, rfl⟩ := hx
    rw [List.mem_range'_1] at hi
    exact hall i hi.1 (by omega)
  have hcardL : L.toFinset.card = existing.length + 1 := by
    rw [List.toFinset_card_of_nodup hnodupL, hL, List.length_map, List.length_range']
  have hle : L.toFinset.card ≤ existing.toFinset.card := Finset.card_le_card hsub
  have hle2 : existing.toFinset.card ≤ existing.length := existing.toFinset_card_le
  omega

theorem dedupId_not_mem (base : String) (existing : List String) :
    dedupId base existing ∉ existing := by
  by_cases h : base ∈ existing
  · have hstep : dedupId base existing =
        dedupIdAux base existing 2 (existing.length + 1) := by
      simp [dedupId, h]
    rw [hstep]
    exact dedupIdAux_not_mem base existing (existing.length + 1) 2
      (exists_fresh_candidate base existing)
  · simp [dedupId, h]

theorem removeFirstById_sublist (key : String) :
    ∀ rows : List TrackedSource, (removeFirstById key rows).2.Sublist rows := by
  intro rows
  induction rows with
  | nil => simp [removeFirstById]
  | cons r rest ih =>
    by_cases h : r.id = key
    · have hstep : removeFirstById key (r :: rest) = (true, rest) := by
        simp [removeFirstById, h]
      rw [hstep]
      exact List.sublist_cons_self r rest
    · have hstep : (removeFirstById key (r :: rest)).2 =
          r :: (removeFirstById key rest).2 := by
        simp [removeFirstById, h]
      rw [hstep]
      exact List.Sublist.cons₂ r ih

theorem applyTrackOp_nodup (rows : List TrackedSource) (op : TrackOp)
    (h : (rows.map (·.id)).Nodup) :
    ((applyTrackOp rows op).map (·.id)).Nodup := by
  cases op with
  | add a n s sid e note =>
    by_cases haid : trackingSlugify a = ""
    · simp [applyTrackOp, add_tracked_source, haid]
      exact h
    · have hfresh := dedupId_not_mem
        (trackingSlugify (pyOrStr sid (trackingSlugify a ++ "-" ++ n)))
        (rows.map (·.id))
      simp [applyTrackOp, add_tracked_source, haid, List.nodup_append]
      refine ⟨h, ?_⟩
      intro x hx heq
      exact hfresh (heq ▸ List.mem_map_of_mem (·.id) hx)
  | remove sid =>
    have hsub := removeFirstById_sublist (pyLower (pyStrip sid)) rows
    exact List.Nodup.sublist (List.Sublist.map (·.id) hsub) h

/-! ### Filesystem model and `promote.py`

A directory tree is an `FsNode`; paths are lists of components
(`pathlib` paths after `resolve()`).  The Pool's `skills/` directory is the
association list `Pool.skills` (directory name ↦ tree), and the append-only
`state/promotions.jsonl` log is `Pool.promoLog`.  `shutil.copytree` with
`symlinks=True` copies the source tree verbatim; the copy cannot share a
name with an existing entry (`copytree` raises `FileExistsError`). -/

inductive FsNode where
  | file (content : String)
  | dir (entries : List (String × FsNode))

/-- Find a directory entry by name. -/
def entriesFind (es : List (String × FsNode)) (k : String) : Option FsNode :=
  (es.find? (fun e => e.1 == k)).map (·.2)

/-- Walk a path down a tree. -/
def FsNode.lookup : FsNode → List String → Option FsNode
  | node, [] => some node
  | node, c :: rest =>
    match node with
    | .file _ => none
    | .dir es =>
      match entriesFind es c with
      | some child => FsNode.lookup child rest
      | none => none

/-- The content of an optional node when it is a file. -/
def fileContent? : Option FsNode → Option String
  | some (.file c) => some c
  | _ => none

/-- Create or overwrite a directory entry (`Path.write_text`). -/
def setEntry (es : List (String × FsNode)) (k : String) (v : FsNode) :
    List (String × FsNode) :=
  if es.any (fun e => e.1 == k) then
    es.map (fun e => if e.1 == k then (e.1, v) else e)
  else es ++ [(k, v)]

/-- Join path components with `/` (for the strings stored in results). -/
def slashJoin : List String → String
  | [] => ""
  | [x] => x
  | x :: rest => x ++ "/" ++ slashJoin rest

/-- An input path: absolute, or relative to the workspace. -/
structure InputPath where
  absolute : Bool
  comps : List String

/-- `promote._resolve_skill_dir`: relative paths are joined to the workspace;
a file named `SKILL.md` resolves to its parent, a directory is accepted when
`dir/SKILL.md` exists, anything else resolves to `none`. -/
def _resolve_skill_dir (fs : FsNode) (workspace : List String) (p : InputPath) :
    Option (List String) :=
  let q := if p.absolute then p.comps else workspace ++ p.comps
  match fs.lookup q with
  | some (.file _) =>
    if q.getLast? = some "SKILL.md" then some q.dropLast else none
  | some (.dir _) =>
    match fs.lookup (q ++ ["SKILL.md"]) with
    | some _ => some q
    | none => none
  | none => none

/-- `models.PromoteResult`. -/
structure PromoteResult where
  success : Bool
  message : String
  source : String
  destination : String
  action : String
deriving DecidableEq

/-- One row of the append-only `state/promotions.jsonl` audit log. -/
structure PromoteLogRow where
  action : String
  source : String
  destination : String
  skill_id : String
  sha256 : String
  time : String
deriving DecidableEq

/-- The Pool state touched by promotion. -/
structure Pool where
  skills : List (String × FsNode)
  promoLog : List PromoteLogRow

/-- Content of the `.skillctl-origin.json` provenance side-file. -/
def originJson (sourceStr wsStr nowIso hashv : String) : String :=
  "\x7b\"source_path\": \"" ++ sourceStr ++ "\", \"workspace\": \"" ++ wsStr ++
    "\", \"promoted_at\": \"" ++ nowIso ++ "\", \"sha256\": \"" ++ hashv ++
    "\"\x7d"

/-- The copy step of `promote_skill`: `shutil.copytree(..., symlinks=True)`
followed by writing `.skillctl-origin.json` into the copy and appending a
row to `state/promotions.jsonl`. -/
def promoteCopy (srcEntries : List (String × FsNode))
    (sourceStr wsStr nowIso src_hash dstName : String) (pool : Pool) :
    Except String (PromoteResult × Pool) :=
  if (entriesFind pool.skills dstName).isSome then
    .error "FileExistsError"
  else
    let stamped : FsNode := .dir (setEntry srcEntries ".skillctl-origin.json"
      (.file (originJson sourceStr wsStr nowIso src_hash)))
    let row : PromoteLogRow :=
      { action := "promote", source := sourceStr,
        destination := slashJoin ["skills", dstName], skill_id := dstName,
        sha256 := src_hash, time := nowIso }
    .ok
      ({ success := true, action := "copied", message := "升格成功。",
         source := sourceStr, destination := slashJoin ["skills", dstName] },
       { skills := pool.skills ++ [(dstName, stamped)],
         promoLog := pool.promoLog ++ [row] })

/-- `promote.promote_skill`.  `hash` stands for `scanner.sha256_file` applied
to a file's content; `ts` is the `%Y%m%d-%H%M%S` suffix timestamp and
`nowIso` the provenance timestamp of this call.  Reading `SKILL.md` when it
is not a regular file raises (`Except.error`), as `sha256_file` does. -/
def promote_skill (hash : String → String) (ts nowIso : String) (fs : FsNode)
    (workspace : List String) (input : InputPath) (pool : Pool) :
    Except String (PromoteResult × Pool) :=
  match _resolve_skill_dir fs workspace input with
  | none =>
    .ok ({ success := false, action := "invalid_input",
           message := "未找到有效 skill（需要目录下含 SKILL.md）。",
           source := "", destination := "" }, pool)
  | some dirPath =>
    match fs.lookup dirPath with
    | some (.dir entries) =>
      let dirName := (dirPath.getLast?).getD ""
      let mdContent := fileContent? (entriesFind entries "SKILL.md")
      let nameOpt :=
        match mdContent with
        | some c => (parse_frontmatter c).1
        | none => none
      let skill_id := promoteSlugify (nameOpt.getD dirName)
      match mdContent with
      | none => .error "IsADirectoryError"
      | some md =>
        let src_hash := hash md
        let sourceStr := slashJoin dirPath
        let wsStr := slashJoin workspace
        match entriesFind pool.skills skill_id with
        | some dstNode =>
          let skipHere :=
            match FsNode.lookup dstNode ["SKILL.md"] with
            | some (.file c) => hash c == src_hash
            | some (.dir _) => "" == src_hash
            | none => false
          if skipHere then
            .ok ({ success := true, action := "skip_same_hash",
                   message := "目标已存在相同版本，跳过。",
                   source := sourceStr,
                   destination := slashJoin ["skills", skill_id] }, pool)
          else
            promoteCopy entries sourceStr wsStr nowIso src_hash
              (skill_id ++ "-" ++ ts) pool
        | none =>
          promoteCopy entries sourceStr wsStr nowIso src_hash skill_id pool
    | _ => .error "unreachable"

/-! ### String ordering (Python `sorted` on strings)

Python compares strings lexicographically by code point; we implement that
comparison directly so results evaluate by kernel reduction. -/

/-- Code-point lexicographic `≤` on character lists. -/
def charListLe : List Char → List Char → Bool
  | [], _ => true
  | _ :: _, [] => false
  | a :: as, b :: bs =>
    if a.toNat < b.toNat then true
    else if b.toNat < a.toNat then false
    else charListLe as bs

/-- Code-point `≤` on strings. -/
def strLe (a b : String) : Bool := charListLe a.data b.data

/-- `strLe` as a relation, for `List.insertionSort`. -/
def strLeRel (a b : String) : Prop := strLe a b = true

instance : DecidableRel strLeRel := fun a b =>
  inferInstanceAs (Decidable (strLe a b = true))

theorem charListLe_total : ∀ (a b : List Char),
    charListLe a b = true ∨ charListLe b a = true := by
  intro a
  induction a with
  | nil => intro b; left; cases b <;> rfl
  | cons x xs ih =>
    intro b
    cases b with
    | nil => right; rfl
    | cons y ys =>
      by_cases h1 : x.toNat < y.toNat
      · left; simp [charListLe, h1]
      · by_cases h2 : y.toNat < x.toNat
        · right; simp [charListLe, h1, h2]
        · rcases ih ys with h | h
          · left; simp [charListLe, h1, h2, h]
          · right; simp [charListLe, h1, h2, h]

theorem charListLe_trans : ∀ (a b c : List Char),
    charListLe a b = true → charListLe b c = true → charListLe a c = true := by
  intro a
  induction a with
  | nil => intro b c _ _; cases c <;> rfl
  | cons x xs ih =>
    intro b c hab hbc
    cases b with
    | nil => simp [charListLe] at hab
    | cons y ys =>
      cases c with
      | nil => simp [charListLe] at hbc
      | cons z zs =>
        simp only [charListLe] at hab hbc ⊢
        split_ifs at hab with h1 h2 <;> split_ifs at hbc with h3 h4 <;>
          split_ifs with h5 h6 <;>
            first
              | rfl
              | omega
              | exact ih ys zs hab hbc

instance : IsTotal String strLeRel := ⟨fun a b => charListLe_total a.data b.data⟩

instance : IsTrans String strLeRel :=
  ⟨fun a b c => charListLe_trans a.data b.data c.data⟩

/-- Python `sorted` on a list of strings. -/
def sortStrings (l : List String) : List String := List.insertionSort strLeRel l

/-! ### `tracking.py`: snapshot loading and set diff

`_load_prev_items` reads the snapshot JSON (missing / unreadable / malformed
files give `[]`, modelled by passing `none`); `check_tracked_source` then
computes `current = sorted({rel dirs})`, `added = sorted(curr - prev)` and
`removed = sorted(prev - curr)`. -/

/-- `tracking._load_prev_items`: `none` models a missing or unreadable
snapshot; list entries that are empty after stripping are dropped. -/
def _load_prev_items : Option (List String) → List String
  | none => []
  | some items => items.filter (fun s => pyStrip s != "")

structure DiffResult where
  current : List String
  added : List String
  removed : List String
deriving DecidableEq

/-- The set-diff core of `tracking.check_tracked_source`, given the `rel_dir`
values of the freshly discovered skills and the persisted snapshot. -/
def checkDiffCore (relDirs : List String) (snap : Option (List String)) :
    DiffResult :=
  let current := sortStrings relDirs.dedup
  let prev := _load_prev_items snap
  let added := sortStrings (current.filter (fun x => !(prev.contains x)))
  let removed := sortStrings (prev.dedup.filter (fun x => !(current.contains x)))
  { current := current, added := added, removed := removed }

/-! ### `web.py`: the Pool identity index and drift classification -/

/-- The identity index built by `web._pool_skill_hash_index`. -/
structure PoolIndex where
  keys : List String
  hashesByKey : List (String × List String)
  allHashes : List String
  total : Nat

/-- Hash set recorded for a key (`pool_hashes_by_key.get(k, set())`). -/
def hashesFor (m : List (String × List String)) (k : String) : List String :=
  (((m.find? (fun e => e.1 == k)).map (·.2))).getD []

/-- `hashes_by_key.setdefault(key, set()).add(digest)`. -/
def addHashForKey (m : List (String × List String)) (k v : String) :
    List (String × List String) :=
  if m.any (fun e => e.1 == k) then
    m.map (fun e => if e.1 == k then (e.1, e.2 ++ [v]) else e)
  else m ++ [(k, [v])]

/-- The `for raw in names` loop of `_pool_skill_hash_index`: record the key
of each name and, when the digest is non-empty, file the digest under that
key. -/
def poolIndexAddNames (digest : String) (names : List String)
    (acc : PoolIndex) : PoolIndex :=
  names.foldl
    (fun a raw =>
      let key := _skill_key raw
      if key = "" then a
      else
        { a with
          keys := a.keys ++ [key],
          hashesByKey := if digest = "" then a.hashesByKey
                         else addHashForKey a.hashesByKey key digest })
    acc

/-- Per-skill step of `_pool_skill_hash_index` (one `skills/*/SKILL.md` glob
hit): record the manifest digest and the keys derived from the directory
name and the parsed display name (an unreadable manifest gives digest `""`,
which is recorded nowhere). -/
def poolIndexStep (hash : String → String) (acc : PoolIndex)
    (entry : String × FsNode) : PoolIndex :=
  match entry.2 with
  | .file _ => acc
  | .dir es =>
    match entriesFind es "SKILL.md" with
    | none => acc
    | some mdNode =>
      let dirName := entry.1
      let frontName :=
        match mdNode with
        | .file c => (parse_frontmatter c).1
        | .dir _ => none
      let digest :=
        match mdNode with
        | .file c => hash c
        | .dir _ => ""
      let names := [dirName] ++
        (match frontName with
         | some n => if n = "" then [] else [n]
         | none => [])
      let acc1 : PoolIndex :=
        { acc with
          allHashes := if digest = "" then acc.allHashes
                       else acc.allHashes ++ [digest],
          total := acc.total + 1 }
      poolIndexAddNames digest names acc1

/-- `web._pool_skill_hash_index` over the Pool's `skills/` entries. -/
def _pool_skill_hash_index (hash : String → String)
    (skills : List (String × FsNode)) : PoolIndex :=
  skills.foldl (poolIndexStep hash) ⟨[], [], [], 0⟩

/-- The `diverged` reason string of `_detect_unmanaged_reason`. -/
def divergedMsg : String := "与 Pool 同名但内容不同，建议纳入 Pool 后人工合并。"

/-- The `unmanaged` reason string of `_detect_unmanaged_reason`. -/
def unmanagedMsg : String := "未在 Pool 中找到该本地技能。"

/-- `web._detect_unmanaged_reason`: `none` means managed (not reported);
`isPoolManagedLocal` is `_is_pool_managed_local_skill` (the skill directory
resolves under the Pool's `skills/` or `dist/` roots); `manifest` is the
content of the skill's `SKILL.md` (`none` when unreadable, giving the
`except OSError: digest = ""` branch).  `detectOverlaps` is its
`keys = [k for k in (key_dir, key_name) if k]` / key-intersection step. -/
def detectOverlaps (idx : PoolIndex) (dirName displayName : String) :
    List String :=
  let key_dir := _skill_key dirName
  let key_name := _skill_key displayName
  let keys := ([key_dir, key_name]).filter (fun k => k != "")
  keys.filter (fun k => idx.keys.contains k)

/-- `web._detect_unmanaged_reason` continued: the main branch structure. -/
def _detect_unmanaged_reason (hash : String → String)
    (isPoolManagedLocal : Bool) (dirName displayName : String)
    (manifest : Option String) (idx : PoolIndex) : Option String :=
  if isPoolManagedLocal then none
  else
    let digest :=
      match manifest with
      | some c => hash c
      | none => ""
    if digest != "" && idx.allHashes.contains digest then none
    else
      let overlaps := detectOverlaps idx dirName displayName
      if !overlaps.isEmpty then
        if digest != "" &&
            overlaps.any (fun k => (hashesFor idx.hashesByKey k).contains digest) then
          none
        else some divergedMsg
      else some unmanagedMsg

/-! ### `indexing._select_items` -/

/-- Python `str.endswith`. -/
def listEndsWith (l p : List Char) : Bool := listStartsWith l.reverse p.reverse

/-- `indexing.IndexedSkill`. -/
structure IndexedSkill where
  name : String
  description : String
  skill_dir : String
  skill_md : String
  rel_dir : String
deriving DecidableEq

/-- The distinct `ValueError`s raised by `_select_items`. -/
inductive SelectError where
  | noSelector
  | ambiguousName (candidates : List String)
  | notFound
deriving DecidableEq

/-- `indexing._select_items`: exact `rel_dir` match first, then unique
display-name match (several name matches raise listing the candidate rel
dirs), then unique `rel_dir` suffix match, else the generic not-found
error. -/
def _select_items (items : List IndexedSkill) (selector : Option String)
    (fetch_all : Bool) : Except SelectError (List IndexedSkill) :=
  if fetch_all then .ok items
  else
    match selector with
    | none => .error .noSelector
    | some sel =>
      if sel = "" then .error .noSelector
      else
        let exact_rel := items.filter (fun x => x.rel_dir == sel)
        if !exact_rel.isEmpty then .ok exact_rel
        else
          let by_name := items.filter (fun x => x.name == sel)
          if by_name.length = 1 then .ok by_name
          else if by_name.length > 1 then
            .error (.ambiguousName (by_name.map (·.rel_dir)))
          else
            let end_match := items.filter
              (fun x => listEndsWith x.rel_dir.data sel.data)
            if end_match.length = 1 then .ok end_match
            else .error .notFound

/-! ### `syncer.run_sync` and `web._do_sync`

`run_sync` restricts the configured platforms by the authorization list and
the `--only` request, stages symlinks (a filesystem effect not needed by the
properties below) and invokes `tools/link-skills.sh` with the flag list we
model as `SyncOutcome.run cmd`.  `cfgPlatforms` stands for the result of
`parse_target_platforms`, `allowed_platforms` / `grantAllowed` for the
already-computed `granted_platforms(...)` lists of the callers. -/

/-- `web._sanitize_skill_ids`: strip, drop empties, de-duplicate keeping
first occurrences. -/
def _sanitize_skill_ids (paths : List String) : List String :=
  paths.foldl
    (fun acc item =>
      let key := pyStrip item
      if key = "" ∨ acc.contains key then acc else acc ++ [key])
    []

/-- `syncer._normalize_platform_csv`. -/
def _normalize_platform_csv (value : Option String) : List String :=
  match value with
  | none => []
  | some v =>
    if v = "" then []
    else
      ((splitOnChar ',' v.data).filter
        (fun piece => !(pyStripList piece).isEmpty)).map
        (fun piece => pyLower ⟨pyStripList piece⟩)

/-- The platform restriction of `run_sync`: configured platforms, filtered by
the authorization list, then by the `--only` request. -/
def activePlatforms (cfgPlatforms : List String)
    (allowed : Option (List String)) (only : Option String) : List String :=
  let active1 :=
    match allowed with
    | none => cfgPlatforms
    | some al =>
      let allowedSet := (al.filter (fun x => pyStrip x != "")).map
        (fun x => pyLower (pyStrip x))
      cfgPlatforms.filter (fun x => allowedSet.contains x)
  let req_only := _normalize_platform_csv only
  if !req_only.isEmpty then active1.filter (fun x => req_only.contains x)
  else active1

/-- Result of `syncer.run_sync`: early no-op success on an empty platform
set, `FileNotFoundError` on a missing installer script, else the installer
invocation with its flag list. -/
inductive SyncOutcome where
  | noop
  | missingScript
  | run (cmd : List String)
deriving DecidableEq

/-- `syncer.run_sync` (command construction; the symlink staging of
`prepare_distribution` and the subprocess output are outside the modelled
state). -/
def run_sync (cfgPlatforms : List String) (scriptExists dry_run prune : Bool)
    (only : Option String) (backup_conflicts : Bool)
    (allowed_platforms : Option (List String)) : SyncOutcome :=
  let active := activePlatforms cfgPlatforms allowed_platforms only
  if active.isEmpty then .noop
  else if !scriptExists then .missingScript
  else
    .run (["tools/link-skills.sh"] ++
      (if dry_run then ["--dry-run"] else []) ++
      (if prune then ["--prune"] else []) ++
      ["--only", commaJoin active] ++
      (if backup_conflicts then ["--backup-conflicts"] else []))

/-- The fields of `web.SyncRequest` used by `_do_sync`; `targets` stands for
`granted_platforms(req.targets)`. -/
structure SyncRequest where
  dry_run : Bool
  prune : Bool
  only : Option String
  skills : List String
  targets : List String
deriving DecidableEq

/-- `web._do_sync`: sanitizes the requested skills and target platforms,
forces `prune` on a selective sync, and calls `run_sync`.  Returns the sync
outcome together with the effective prune flag and selected skills (part of
the handler's result payload). -/
def _do_sync (grantAllowed cfgPlatforms : List String) (scriptExists : Bool)
    (req : SyncRequest) : SyncOutcome × Bool × List String :=
  let target_platforms := _sanitize_skill_ids req.targets
  let selected_skills := _sanitize_skill_ids req.skills
  let only_value :=
    if !target_platforms.isEmpty then some (commaJoin target_platforms)
    else req.only
  let prune_value :=
    if !selected_skills.isEmpty && !req.prune then true else req.prune
  (run_sync cfgPlatforms scriptExists req.dry_run prune_value only_value
    false (some grantAllowed),
   prune_value, selected_skills)

/-! ### `web.py`: job log append and cursor snapshot -/

/-- `web._append_job_log`: blank messages are dropped, others are appended
with a `[HH:MM:SS]` prefix (the clock text is a parameter). -/
def _append_job_log (clock : String) (logs : List String) (message : String) :
    List String :=
  let text := pyStrip message
  if text = "" then logs else logs ++ ["[" ++ clock ++ "] " ++ text]

/-- The log/cursor part of `web._job_snapshot`: clamp the cursor into
`[0, len(logs)]`, return the lines from there on and the new cursor. -/
def _job_snapshot (logs : List String) (cursor : Int) : List String × Nat :=
  let safe := (max 0 (min cursor (logs.length : Int))).toNat
  (logs.drop safe, logs.length)

/-! ## Claim theorems -/

/-! ### C9: tracked-source id uniqueness -/

/-- C9: starting from a configuration whose tracked-source ids are pairwise
distinct, any sequence of `add` / `remove` operations leaves them pairwise
distinct; `add` resolves a colliding auto-derived id by numeric suffixing
(`dedupId`, whose result is never an existing id by `dedupId_not_mem`). -/
theorem tracked_source_ids_pairwise_distinct (rows : List TrackedSource)
    (ops : List TrackOp) (h : (rows.map (·.id)).Nodup) :
    (((ops.foldl applyTrackOp rows)).map (·.id)).Nodup := by
  induction ops generalizing rows with
  | nil => exact h
  | cons op rest ih => exact ih _ (applyTrackOp_nodup rows op h)

theorem tracked_source_ids_pairwise_distinct_witness :
    (([] : List TrackedSource).map (·.id)).Nodup ∧
    ((([TrackOp.add "agent" "Alpha" "https://r.git" none true "",
        TrackOp.add "agent" "Alpha" "https://r.git" none true "",
        TrackOp.add "agent" "Alpha" "https://r.git" none true "",
        TrackOp.remove "agent-alpha"].foldl applyTrackOp
          ([] : List TrackedSource)).map (·.id)).Nodup) :=
  ⟨by decide, tracked_source_ids_pairwise_distinct [] _ (by decide)⟩

/-! ### C8: tracked-source `add` precondition -/

/-- C8: the claim (and the source's own `if not aid: raise ValueError`
guard) require a non-empty agent id and name, but `_slugify` maps the empty
or whitespace-only agent id to the fallback `"tracked-source"`, so the guard
can never fire: `add` succeeds and appends a row for an empty agent id, and
for an empty name. -/
theorem add_tracked_source_accepts_empty_fields :
    add_tracked_source [] "" "Alpha" "https://r.git" none true "" =
      .ok ({ id := "tracked-source-alpha", agent_id := "tracked-source",
             name := "Alpha", source := "https://r.git", enabled := true,
             note := "" },
           [{ id := "tracked-source-alpha", agent_id := "tracked-source",
              name := "Alpha", source := "https://r.git", enabled := true,
              note := "" }]) ∧
    add_tracked_source [] "   " "Alpha" "https://r.git" none true "" =
      .ok ({ id := "tracked-source-alpha", agent_id := "tracked-source",
             name := "Alpha", source := "https://r.git", enabled := true,
             note := "" },
           [{ id := "tracked-source-alpha", agent_id := "tracked-source",
              name := "Alpha", source := "https://r.git", enabled := true,
              note := "" }]) ∧
    add_tracked_source [] "agent" "" "https://r.git" none true "" =
      .ok ({ id := "agent", agent_id := "agent", name := "",
             source := "https://r.git", enabled := true, note := "" },
           [{ id := "agent", agent_id := "agent", name := "",
              source := "https://r.git", enabled := true, note := "" }]) ∧
    (∀ raw : String, trackingSlugify raw ≠ "") :=
  ⟨rfl, rfl, rfl, fun raw => by
    unfold trackingSlugify
    split_ifs with h
    · simp
    · simpa using h⟩

/-! ### C7: job log cursor -/

theorem jobSnapshot_lines (logs : List String) (cursor : Int) :
    (_job_snapshot logs cursor).1 = logs.drop cursor.toNat := by
  have hsafe : (max 0 (min cursor (logs.length : Int))).toNat
      = min cursor.toNat logs.length := by omega
  unfold _job_snapshot
  simp only [hsafe]
  rcases le_or_lt cursor.toNat logs.length with h | h
  · rw [min_eq_left h]
  · rw [min_eq_right (le_of_lt h), List.drop_length,
      List.drop_eq_nil_of_le (le_of_lt h)]

theorem appendJobLogs_extends (msgs : List (String × String)) :
    ∀ logs : List String,
      ∃ ext, msgs.foldl (fun l cm => _append_job_log cm.1 l cm.2) logs
        = logs ++ ext := by
  induction msgs with
  | nil => intro logs; exact ⟨[], by simp⟩
  | cons cm rest ih =>
    intro logs
    obtain ⟨ext, hext⟩ := ih (_append_job_log cm.1 logs cm.2)
    simp only [List.foldl_cons] at *
    by_cases h : pyStrip cm.2 = ""
    · refine ⟨ext, ?_⟩
      rw [hext]
      simp [_append_job_log, h]
    · refine ⟨("[" ++ cm.1 ++ "] " ++ pyStrip cm.2) :: ext, ?_⟩
      rw [hext]
      simp [_append_job_log, h]

/-- C7: polling with integer cursor `c` returns exactly the lines from index
`c` on (`toNat` clamps negative cursors) together with `next_cursor = total
number of lines`; after any further appends, polling again with the returned
cursor yields only lines beyond the first poll's total — never a previously
delivered line. -/
theorem job_log_cursor_correct (logs : List String) (cursor : Int)
    (msgs : List (String × String)) :
    (_job_snapshot logs cursor).1 = logs.drop cursor.toNat ∧
    (_job_snapshot logs cursor).2 = logs.length ∧
    (msgs.foldl (fun l cm => _append_job_log cm.1 l cm.2) logs).take logs.length
      = logs ∧
    (_job_snapshot (msgs.foldl (fun l cm => _append_job_log cm.1 l cm.2) logs)
        ((_job_snapshot logs cursor).2 : Int)).1
      = (msgs.foldl (fun l cm => _append_job_log cm.1 l cm.2) logs).drop
          logs.length := by
  obtain ⟨ext, hext⟩ := appendJobLogs_extends msgs logs
  refine ⟨jobSnapshot_lines logs cursor, rfl, ?_, ?_⟩
  · rw [hext, List.take_left]
  · rw [jobSnapshot_lines]
    simp [_job_snapshot]

/-! ### C6: forced prune on subset sync -/

/-- C6: a sync request that selects a non-empty skill subset without
explicitly requesting prune forces the prune flag on, and (when any platform
is active and the installer script exists) invokes the external installer
with `--prune` on its command line. -/
theorem subset_sync_forces_prune (grantAllowed cfgPlatforms : List String)
    (req : SyncRequest)
    (hsel : _sanitize_skill_ids req.skills ≠ [])
    (hprune : req.prune = false)
    (hactive : activePlatforms cfgPlatforms (some grantAllowed)
        (if !(_sanitize_skill_ids req.targets).isEmpty
         then some (commaJoin (_sanitize_skill_ids req.targets))
         else req.only) ≠ []) :
    (_do_sync grantAllowed cfgPlatforms true req).2.1 = true ∧
    ∃ cmd, (_do_sync grantAllowed cfgPlatforms true req).1 = .run cmd ∧
      "--prune" ∈ cmd := by
  have hselb : (_sanitize_skill_ids req.skills).isEmpty = false := by
    simpa [List.isEmpty_iff] using hsel
  have hactiveb : (activePlatforms cfgPlatforms (some grantAllowed)
      (if !(_sanitize_skill_ids req.targets).isEmpty
       then some (commaJoin (_sanitize_skill_ids req.targets))
       else req.only)).isEmpty = false := by
    simpa [List.isEmpty_iff] using hactive
  constructor
  · simp [_do_sync, hselb, hprune]
  · use ["tools/link-skills.sh"] ++ (if req.dry_run then ["--dry-run"] else [])
      ++ ["--prune"] ++ ["--only", commaJoin (activePlatforms cfgPlatforms
        (some grantAllowed)
        (if !(_sanitize_skill_ids req.targets).isEmpty
         then some (commaJoin (_sanitize_skill_ids req.targets))
         else req.only))]
    constructor
    · simp [_do_sync, run_sync, hselb, hprune, hactiveb]
      simpa using hactive
    · simp

theorem subset_sync_forces_prune_witness :
    (_do_sync ["codex"] ["codex"] true
        { dry_run := false, prune := false, only := none,
          skills := ["alpha"], targets := [] }).2.1 = true ∧
    ∃ cmd, (_do_sync ["codex"] ["codex"] true
        { dry_run := false, prune := false, only := none,
          skills := ["alpha"], targets := [] }).1 = .run cmd ∧
      "--prune" ∈ cmd :=
  subset_sync_forces_prune ["codex"] ["codex"]
    { dry_run := false, prune := false, only := none,
      skills := ["alpha"], targets := [] }
    (by decide) (by decide) (by decide)

/-! ### C4: tracked-source diff -/

theorem sortStrings_mem {x : String} {l : List String} :
    x ∈ sortStrings l ↔ x ∈ l :=
  (List.perm_insertionSort strLeRel l).mem_iff

theorem sortStrings_sorted (l : List String) :
    List.Sorted strLeRel (sortStrings l) :=
  List.sorted_insertionSort strLeRel l

theorem sortStrings_nodup {l : List String} (h : l.Nodup) :
    (sortStrings l).Nodup :=
  ((List.perm_insertionSort strLeRel l).nodup_iff).mpr h

/-- C4: `check_tracked_source` reports `added` as the discovered set minus
the persisted snapshot and `removed` as the snapshot minus the discovered
set, both as duplicate-free ascending (code-point `≤`) sorted lists; a
missing or unreadable snapshot counts as the empty set, and the
`{a,b,c} → {b,c,d}` example yields `added = [d]`, `removed = [a]`. -/
theorem check_diff_correct (relDirs : List String)
    (snap : Option (List String)) :
    (∀ x, x ∈ (checkDiffCore relDirs snap).added ↔
       x ∈ relDirs ∧ x ∉ _load_prev_items snap) ∧
    (∀ x, x ∈ (checkDiffCore relDirs snap).removed ↔
       x ∈ _load_prev_items snap ∧ x ∉ relDirs) ∧
    List.Sorted strLeRel (checkDiffCore relDirs snap).added ∧
    (checkDiffCore relDirs snap).added.Nodup ∧
    List.Sorted strLeRel (checkDiffCore relDirs snap).removed ∧
    (checkDiffCore relDirs snap).removed.Nodup ∧
    _load_prev_items none = [] ∧
    checkDiffCore ["b", "c", "d"] (some ["a", "b", "c"]) =
      { current := ["b", "c", "d"], added := ["d"], removed := ["a"] } := by
  refine ⟨?_, ?_, ?_, ?_, ?_, ?_, rfl, by decide⟩
  · intro x
    simp [checkDiffCore, sortStrings_mem, List.mem_filter, List.mem_dedup]
  · intro x
    simp [checkDiffCore, sortStrings_mem, List.mem_filter, List.mem_dedup]
  · exact sortStrings_sorted _
  · exact sortStrings_nodup (List.Nodup.filter _ (sortStrings_nodup
      (List.nodup_dedup relDirs)))
  · exact sortStrings_sorted _
  · exact sortStrings_nodup (List.Nodup.filter _
      (List.nodup_dedup (_load_prev_items snap)))

/-! ### C5: selector resolution (corrected)

The code's suffix level does not raise a distinct ambiguity error: two or
more suffix matches fall into the generic `"未找到匹配 skill。"` branch,
indistinguishable from no match at all. -/

/-- C5 counterexample: with rel dirs `a/s` and `b/s` (distinct names),
selector `"s"` matches both as a suffix, and the code raises the generic
not-found error — the same error a selector with no match at all gets — not
a distinct ambiguity error carrying the candidate list. -/
theorem select_items_suffix_ambiguity_cex :
    _select_items
      [{ name := "Name One", description := "", skill_dir := "",
         skill_md := "", rel_dir := "a/s" },
       { name := "Name Two", description := "", skill_dir := "",
         skill_md := "", rel_dir := "b/s" }] (some "s") false
      = .error .notFound ∧
    _select_items
      [{ name := "Name One", description := "", skill_dir := "",
         skill_md := "", rel_dir := "a/s" },
       { name := "Name Two", description := "", skill_dir := "",
         skill_md := "", rel_dir := "b/s" }] (some "zzz") false
      = .error .notFound ∧
    SelectError.notFound ≠ SelectError.ambiguousName ["a/s", "b/s"] :=
  ⟨rfl, rfl, by decide⟩

/-- C5 (amended): exact `rel_dir` matches are returned first; otherwise a
unique display-name match is returned, several name matches raise the
ambiguity error listing all candidate rel dirs; otherwise a unique suffix
match is returned; no suffix match — or several suffix matches — raises the
generic not-found error (suffix-level ambiguity is not distinguished). -/
theorem select_items_precedence (items : List IndexedSkill) (sel : String)
    (hne : sel ≠ "") :
    (items.filter (fun x => x.rel_dir == sel) ≠ [] →
       _select_items items (some sel) false =
         .ok (items.filter (fun x => x.rel_dir == sel))) ∧
    (items.filter (fun x => x.rel_dir == sel) = [] →
     (items.filter (fun x => x.name == sel)).length = 1 →
       _select_items items (some sel) false =
         .ok (items.filter (fun x => x.name == sel))) ∧
    (items.filter (fun x => x.rel_dir == sel) = [] →
     (items.filter (fun x => x.name == sel)).length > 1 →
       _select_items items (some sel) false =
         .error (.ambiguousName
           ((items.filter (fun x => x.name == sel)).map (·.rel_dir)))) ∧
    (items.filter (fun x => x.rel_dir == sel) = [] →
     items.filter (fun x => x.name == sel) = [] →
     (items.filter (fun x => listEndsWith x.rel_dir.data sel.data)).length = 1 →
       _select_items items (some sel) false =
         .ok (items.filter (fun x => listEndsWith x.rel_dir.data sel.data))) ∧
    (items.filter (fun x => x.rel_dir == sel) = [] →
     items.filter (fun x => x.name == sel) = [] →
     (items.filter (fun x => listEndsWith x.rel_dir.data sel.data)).length ≠ 1 →
       _select_items items (some sel) false = .error .notFound) := by
  refine ⟨?_, ?_, ?_, ?_, ?_⟩
  · intro hex
    have hexb : (items.filter (fun x => x.rel_dir == sel)).isEmpty = false := by
      simpa [List.isEmpty_iff] using hex
    simp [_select_items, hne, hexb]
  · intro hex hone
    simp [_select_items, hne, hex, hone]
  · intro hex hmany
    have h1 : (items.filter (fun x => x.name == sel)).length ≠ 1 := by omega
    simp [_select_items, hne, hex, h1, hmany]
  · intro hex hname hsuf
    simp [_select_items, hne, hex, hname, hsuf]
  · intro hex hname hsuf
    simp [_select_items, hne, hex, hname, hsuf]

theorem select_items_precedence_witness :
    _select_items
      [{ name := "Skill A", description := "", skill_dir := "",
         skill_md := "", rel_dir := "x/y/skill-a" },
       { name := "Skill A", description := "", skill_dir := "",
         skill_md := "", rel_dir := "z/skill-a" }] (some "x/y/skill-a") false
      = .ok [{ name := "Skill A", description := "", skill_dir := "",
               skill_md := "", rel_dir := "x/y/skill-a" }] ∧
    _select_items
      [{ name := "Skill A", description := "", skill_dir := "",
         skill_md := "", rel_dir := "x/y/skill-a" },
       { name := "Skill A", description := "", skill_dir := "",
         skill_md := "", rel_dir := "z/skill-a" }] (some "Skill A") false
      = .error (.ambiguousName ["x/y/skill-a", "z/skill-a"]) := by
  constructor
  · exact ((select_items_precedence
      [{ name := "Skill A", description := "", skill_dir := "",
         skill_md := "", rel_dir := "x/y/skill-a" },
       { name := "Skill A", description := "", skill_dir := "",
         skill_md := "", rel_dir := "z/skill-a" }] "x/y/skill-a"
      (by decide)).1 (by decide)).trans (by rfl)
  · exact ((select_items_precedence
      [{ name := "Skill A", description := "", skill_dir := "",
         skill_md := "", rel_dir := "x/y/skill-a" },
       { name := "Skill A", description := "", skill_dir := "",
         skill_md := "", rel_dir := "z/skill-a" }] "Skill A"
      (by decide)).2.2.1 (by decide) (by decide)).trans (by rfl)

/-! ### C3: drift classification

Hash sets recorded per key by `_pool_skill_hash_index` are always subsets of
`allHashes`, and the empty digest is never recorded; both facts are needed to
relate the code's branch order to the claim's classification. -/

/-- Well-formedness of a built index: every recorded per-key hash is in
`allHashes`, and `allHashes` holds no empty digest. -/
def PoolIndexOk (idx : PoolIndex) : Prop :=
  (∀ e ∈ idx.hashesByKey, ∀ v ∈ e.2, v ∈ idx.allHashes) ∧
  (∀ v ∈ idx.allHashes, v ≠ "")

theorem addHashForKey_mem {m : List (String × List String)} {k v : String}
    {e : String × List String} (he : e ∈ addHashForKey m k v) :
    (∃ e' ∈ m, e'.1 = e.1 ∧ ∀ x ∈ e.2, x ∈ e'.2 ∨ x = v) ∨ e = (k, [v]) := by
  unfold addHashForKey at he
  split_ifs at he with hany
  · rw [List.mem_map] at he
    obtain ⟨e', he', heq⟩ := he
    left
    refine ⟨e', he', ?_⟩
    by_cases hk : e'.1 == k
    · rw [if_pos hk] at heq
      subst heq
      refine ⟨rfl, ?_⟩
      intro x hx
      rcases List.mem_append.mp hx with h | h
      · exact Or.inl h
      · simp at h
        exact Or.inr h
    · rw [if_neg hk] at heq
      subst heq
      exact ⟨rfl, fun x hx => Or.inl hx⟩
  · rcases List.mem_append.mp he with h | h
    · exact Or.inl ⟨e, h, rfl, fun x hx => Or.inl hx⟩
    · right
      simpa using h

theorem poolIndexAddNames_ok (digest : String) (names : List String) :
    ∀ acc : PoolIndex, PoolIndexOk acc → (digest ≠ "" → digest ∈ acc.allHashes) →
      PoolIndexOk (poolIndexAddNames digest names acc) ∧
      (poolIndexAddNames digest names acc).allHashes = acc.allHashes := by
  induction names with
  | nil => intro acc hok _; exact ⟨hok, rfl⟩
  | cons raw rest ih =>
    intro acc hok hdig
    by_cases hkey : _skill_key raw = ""
    · have hstep : poolIndexAddNames digest (raw :: rest) acc =
          poolIndexAddNames digest rest acc := by
        simp [poolIndexAddNames, hkey]
      rw [hstep]
      exact ih acc hok hdig
    · set acc' : PoolIndex :=
        { acc with
          keys := acc.keys ++ [_skill_key raw],
          hashesByKey := if digest = "" then acc.hashesByKey
                         else addHashForKey acc.hashesByKey (_skill_key raw) digest }
        with hacc'
      have hstep : poolIndexAddNames digest (raw :: rest) acc =
          poolIndexAddNames digest rest acc' := by
        simp [poolIndexAddNames, hkey, hacc']
      rw [hstep]
      have hok' : PoolIndexOk acc' := by
        constructor
        · intro e he v hv
          by_cases hd : digest = ""
          · simp only [hacc', hd, if_pos rfl] at he
            exact hok.1 e he v hv
          · simp only [hacc', hd, if_neg, reduceIte] at he
            rcases addHashForKey_mem he with ⟨e2, he2, _, hsub⟩ | heq
            · rcases hsub v hv with h | h
              · exact hok.1 e2 he2 v h
              · rw [h]; exact hdig hd
            · rw [heq] at hv
              simp at hv
              rw [hv]
              exact hdig hd
        · exact hok.2
      exact ih acc' hok' hdig

theorem poolIndexStep_ok (hash : String → String) (acc : PoolIndex)
    (entry : String × FsNode) (hok : PoolIndexOk acc) :
    PoolIndexOk (poolIndexStep hash acc entry) := by
  obtain ⟨dirName, node⟩ := entry
  cases node with
  | file c => exact hok
  | dir es =>
    show PoolIndexOk (match entriesFind es "SKILL.md" with
      | none => acc
      | some mdNode => _)
    cases hfind : entriesFind es "SKILL.md" with
    | none => exact hok
    | some mdNode =>
      simp only
      set digest := (match mdNode with
        | .file c => hash c
        | .dir _ => "") with hdig
      set acc1 : PoolIndex :=
        { acc with
          allHashes := if digest = "" then acc.allHashes
                       else acc.allHashes ++ [digest],
          total := acc.total + 1 } with hacc1
      have hok1 : PoolIndexOk acc1 := by
        constructor
        · intro e he v hv
          by_cases hd : digest = ""
          · simp only [hacc1, hd, if_pos rfl]
            exact hok.1 e he v hv
          · simp only [hacc1, hd, if_neg, reduceIte]
            exact List.mem_append.mpr (Or.inl (hok.1 e he v hv))
        · intro v hv
          by_cases hd : digest = ""
          · simp only [hacc1, hd, if_pos rfl] at hv
            exact hok.2 v hv
          · simp only [hacc1, hd, if_neg, reduceIte] at hv
            rcases List.mem_append.mp hv with h | h
            · exact hok.2 v h
            · simp at h
              rw [h]; exact hd
      have hdig1 : digest ≠ "" → digest ∈ acc1.allHashes := by
        intro hd
        simp [hacc1, hd]
      exact (poolIndexAddNames_ok digest _ acc1 hok1 hdig1).1

theorem pool_index_ok (hash : String → String)
    (skills : List (String × FsNode)) :
    PoolIndexOk (_pool_skill_hash_index hash skills) := by
  have base : PoolIndexOk ⟨[], [], [], 0⟩ := by
    constructor <;> intro e he <;> simp at he
  show PoolIndexOk (skills.foldl (poolIndexStep hash) ⟨[], [], [], 0⟩)
  generalize hacc : (⟨[], [], [], 0⟩ : PoolIndex) = acc0
  rw [hacc] at base
  clear hacc
  induction skills generalizing acc0 with
  | nil => exact base
  | cons entry rest ih =>
    exact ih _ (poolIndexStep_ok hash acc0 entry base)

theorem mem_hashesFor {m : List (String × List String)} {k v : String}
    (h : v ∈ hashesFor m k) : ∃ e ∈ m, v ∈ e.2 := by
  unfold hashesFor at h
  cases hfind : m.find? (fun e => e.1 == k) with
  | none => rw [hfind] at h; simp at h
  | some e =>
    rw [hfind] at h
    simp at h
    exact ⟨e, List.mem_of_find?_eq_some hfind, h⟩

/-- C3: classification of an externally discovered skill that is not under
the Pool's `skills/` or `dist/` roots (`isPoolManagedLocal = false`),
against the index built from the Pool's skills:
* manifest hash among all Pool manifest hashes → managed (`none`), whatever
  the directory name;
* a key overlap whose recorded hash set contains the manifest hash →
  managed (`none`);
* hash matching no Pool hash but a key overlap → `diverged`;
* hash matching nothing and no key overlap → `unmanaged`. -/
theorem drift_classification (hash : String → String)
    (skills : List (String × FsNode)) (dirName displayName manifest : String) :
    (hash manifest ∈ (_pool_skill_hash_index hash skills).allHashes →
       _detect_unmanaged_reason hash false dirName displayName (some manifest)
         (_pool_skill_hash_index hash skills) = none) ∧
    ((∃ k ∈ detectOverlaps (_pool_skill_hash_index hash skills) dirName displayName,
        hash manifest ∈ hashesFor (_pool_skill_hash_index hash skills).hashesByKey k) →
       _detect_unmanaged_reason hash false dirName displayName (some manifest)
         (_pool_skill_hash_index hash skills) = none) ∧
    (hash manifest ∉ (_pool_skill_hash_index hash skills).allHashes →
     detectOverlaps (_pool_skill_hash_index hash skills) dirName displayName ≠ [] →
     (∀ k ∈ detectOverlaps (_pool_skill_hash_index hash skills) dirName displayName,
        hash manifest ∉ hashesFor (_pool_skill_hash_index hash skills).hashesByKey k) →
       _detect_unmanaged_reason hash false dirName displayName (some manifest)
         (_pool_skill_hash_index hash skills) = some divergedMsg) ∧
    (hash manifest ∉ (_pool_skill_hash_index hash skills).allHashes →
     detectOverlaps (_pool_skill_hash_index hash skills) dirName displayName = [] →
       _detect_unmanaged_reason hash false dirName displayName (some manifest)
         (_pool_skill_hash_index hash skills) = some unmanagedMsg) := by
  have hok := pool_index_ok hash skills
  have managed :
      hash manifest ∈ (_pool_skill_hash_index hash skills).allHashes →
        _detect_unmanaged_reason hash false dirName displayName (some manifest)
          (_pool_skill_hash_index hash skills) = none := by
    intro hin
    have hne : hash manifest ≠ "" := hok.2 _ hin
    simp [_detect_unmanaged_reason, hne, hin]
  refine ⟨managed, ?_, ?_, ?_⟩
  · intro ⟨k, hk, hv⟩
    obtain ⟨e, he, hmem⟩ := mem_hashesFor hv
    exact managed (hok.1 e he _ hmem)
  · intro hnotin hov hnone
    have hovb : (detectOverlaps (_pool_skill_hash_index hash skills)
        dirName displayName).isEmpty = false := by
      simpa [List.isEmpty_iff] using hov
    have hany : (detectOverlaps (_pool_skill_hash_index hash skills)
        dirName displayName).any
          (fun k => (hashesFor (_pool_skill_hash_index hash skills).hashesByKey
            k).contains (hash manifest)) = false := by
      simp only [List.any_eq_false]
      intro k hk
      simpa using hnone k hk
    simp [_detect_unmanaged_reason, hnotin, hovb, hany]
    exact fun _ => hnone
  · intro hnotin hov
    simp [_detect_unmanaged_reason, hnotin, hov]

/-- The concrete hash function used in witnesses: prefixing keeps it
injective on contents and never empty (like a hex digest). -/
def hashTag (s : String) : String := "#" ++ s

theorem drift_classification_witness :
    (_detect_unmanaged_reason hashTag false "renamed-dir" "Renamed"
       (some "---\nname: Alpha\n---\nbody")
       (_pool_skill_hash_index hashTag
         [("alpha", .dir [("SKILL.md", .file "---\nname: Alpha\n---\nbody")])])
      = none) ∧
    (_detect_unmanaged_reason hashTag false "alpha" "Alpha"
       (some "---\nname: Alpha\n---\nbody")
       (_pool_skill_hash_index hashTag
         [("alpha", .dir [("SKILL.md", .file "---\nname: Alpha\n---\nbody")])])
      = none) ∧
    (_detect_unmanaged_reason hashTag false "alpha" "Alpha"
       (some "---\nname: Alpha\n---\nchanged")
       (_pool_skill_hash_index hashTag
         [("alpha", .dir [("SKILL.md", .file "---\nname: Alpha\n---\nbody")])])
      = some divergedMsg) ∧
    (_detect_unmanaged_reason hashTag false "zeta" "Zeta"
       (some "---\nname: Zeta\n---\nbody")
       (_pool_skill_hash_index hashTag
         [("alpha", .dir [("SKILL.md", .file "---\nname: Alpha\n---\nbody")])])
      = some unmanagedMsg) :=
  ⟨(drift_classification hashTag
      [("alpha", .dir [("SKILL.md", .file "---\nname: Alpha\n---\nbody")])]
      "renamed-dir" "Renamed" "---\nname: Alpha\n---\nbody").1 (by decide),
   (drift_classification hashTag
      [("alpha", .dir [("SKILL.md", .file "---\nname: Alpha\n---\nbody")])]
      "alpha" "Alpha" "---\nname: Alpha\n---\nbody").2.1 (by decide),
   (drift_classification hashTag
      [("alpha", .dir [("SKILL.md", .file "---\nname: Alpha\n---\nbody")])]
      "alpha" "Alpha" "---\nname: Alpha\n---\nchanged").2.2.1
     (by decide) (by decide) (by decide),
   (drift_classification hashTag
      [("alpha", .dir [("SKILL.md", .file "---\nname: Alpha\n---\nbody")])]
      "zeta" "Zeta" "---\nname: Zeta\n---\nbody").2.2.2
     (by decide) (by decide)⟩

/-! ### C1, C2, C10: promotion -/

theorem fileContent?_eq_some {o : Option FsNode} {c : String} :
    fileContent? o = some c ↔ o = some (.file c) := by
  cases o with
  | none => simp [fileContent?]
  | some node =>
    cases node with
    | file d => simp [fileContent?]
    | dir es => simp [fileContent?]

theorem entriesFind_append_of_some {es1 es2 : List (String × FsNode)}
    {k : String} {n : FsNode} (h : entriesFind es1 k = some n) :
    entriesFind (es1 ++ es2) k = some n := by
  unfold entriesFind at *
  rw [List.find?_append]
  cases hf : es1.find? (fun e => e.1 == k) with
  | none => rw [hf] at h; simp at h
  | some e =>
    rw [hf] at h
    simp at h
    simp [h]

theorem entriesFind_append_of_none {es1 es2 : List (String × FsNode)}
    {k : String} (h : entriesFind es1 k = none) :
    entriesFind (es1 ++ es2) k = entriesFind es2 k := by
  unfold entriesFind at *
  rw [List.find?_append]
  cases hf : es1.find? (fun e => e.1 == k) with
  | none => simp
  | some e => rw [hf] at h; simp at h

theorem entriesFind_singleton_self (k : String) (v : FsNode) :
    entriesFind [(k, v)] k = some v := by
  simp [entriesFind]

theorem entriesFind_map_overwrite_ne {es : List (String × FsNode)}
    {k k' : String} (v : FsNode) (h : k' ≠ k) :
    entriesFind (es.map (fun e => if e.1 == k then (e.1, v) else e)) k'
      = entriesFind es k' := by
  induction es with
  | nil => rfl
  | cons e rest ih =>
    simp only [List.map_cons]
    by_cases hk : e.1 == k
    · have h1 : (if (e.1 == k) = true then (e.1, v) else e) = (e.1, v) :=
        if_pos hk
      have hk' : (e.1 == k') = false := by
        refine beq_eq_false_iff_ne.mpr ?_
        intro he
        exact h (he ▸ (beq_iff_eq.mp hk))
      rw [h1]
      unfold entriesFind
      rw [List.find?_cons, List.find?_cons]
      simp only [hk']
      exact ih
    · have h1 : (if (e.1 == k) = true then (e.1, v) else e) = e :=
        if_neg (by simpa using hk)
      rw [h1]
      unfold entriesFind
      rw [List.find?_cons, List.find?_cons]
      by_cases hk2 : e.1 == k'
      · simp only [hk2]
      · simp only [hk2]
        exact ih

theorem entriesFind_setEntry_ne {es : List (String × FsNode)}
    {k k' : String} (v : FsNode) (h : k' ≠ k) :
    entriesFind (setEntry es k v) k' = entriesFind es k' := by
  unfold setEntry
  split_ifs with hany
  · exact entriesFind_map_overwrite_ne v h
  · cases hf : entriesFind es k' with
    | some n => exact entriesFind_append_of_some hf
    | none =>
      rw [entriesFind_append_of_none hf]
      simp [entriesFind, beq_eq_false_iff_ne.mpr (Ne.symm h)]

theorem entriesFind_eq_none_iff {es : List (String × FsNode)} {k : String} :
    entriesFind es k = none ↔ k ∉ es.map Prod.fst := by
  unfold entriesFind
  constructor
  · intro h hmem
    rw [List.mem_map] at hmem
    obtain ⟨e, he, hk⟩ := hmem
    rw [Option.map_eq_none', List.find?_eq_none] at h
    exact h e he (by simp [hk])
  · intro h
    rw [Option.map_eq_none', List.find?_eq_none]
    intro e he hk
    exact h (List.mem_map.mpr ⟨e, he, by simpa using hk⟩)

theorem mem_keys_of_entriesFind_some {es : List (String × FsNode)}
    {k : String} {n : FsNode} (h : entriesFind es k = some n) :
    k ∈ es.map Prod.fst := by
  unfold entriesFind at h
  cases hf : es.find? (fun e => e.1 == k) with
  | none => rw [hf] at h; simp at h
  | some e =>
    have hp := List.find?_some hf
    have hm := List.mem_of_find?_eq_some hf
    simp at hp
    exact hp ▸ List.mem_map_of_mem Prod.fst hm

/-- The skill id `promote_skill` derives for a readable manifest `md` found
at `dirPath`: the slug of the parsed `name`, or of the directory name. -/
def skillIdOf (md : String) (dirPath : List String) : String :=
  promoteSlugify (((parse_frontmatter md).1).getD ((dirPath.getLast?).getD ""))

/-- Evaluation of `promote_skill` once the input resolves to a directory
whose `SKILL.md` is a readable file: the remaining behaviour depends only on
the Pool entry at the derived id. -/
theorem promote_skill_eval (hash : String → String) (ts nowIso : String)
    (fs : FsNode) (ws : List String) (input : InputPath) (pool : Pool)
    (dirPath : List String) (entries : List (String × FsNode)) (md : String)
    (hres : _resolve_skill_dir fs ws input = some dirPath)
    (hdir : fs.lookup dirPath = some (.dir entries))
    (hmd : entriesFind entries "SKILL.md" = some (.file md)) :
    promote_skill hash ts nowIso fs ws input pool =
      match entriesFind pool.skills (skillIdOf md dirPath) with
      | some dstNode =>
        if (match FsNode.lookup dstNode ["SKILL.md"] with
            | some (.file c) => hash c == hash md
            | some (.dir _) => "" == hash md
            | none => false) then
          .ok ({ success := true, action := "skip_same_hash",
                 message := "目标已存在相同版本，跳过。",
                 source := slashJoin dirPath,
                 destination := slashJoin ["skills", skillIdOf md dirPath] },
               pool)
        else
          promoteCopy entries (slashJoin dirPath) (slashJoin ws) nowIso
            (hash md) (skillIdOf md dirPath ++ "-" ++ ts) pool
      | none =>
        promoteCopy entries (slashJoin dirPath) (slashJoin ws) nowIso
          (hash md) (skillIdOf md dirPath) pool := by
  simp only [promote_skill, hres, hdir, hmd, fileContent?, skillIdOf]

/-- C10: an input that resolves to no skill directory — not a `SKILL.md`
file, not a directory with a `SKILL.md` entry, neither directly nor relative
to the workspace — makes `promote_skill` return a failure result with action
`invalid_input` (no exception), leaving the Pool unchanged. -/
theorem promote_invalid_input (hash : String → String) (ts nowIso : String)
    (fs : FsNode) (ws : List String) (input : InputPath) (pool : Pool)
    (h : _resolve_skill_dir fs ws input = none) :
    ∃ res, promote_skill hash ts nowIso fs ws input pool = .ok (res, pool) ∧
      res.success = false ∧ res.action = "invalid_input" := by
  refine ⟨{ success := false, action := "invalid_input",
            message := "未找到有效 skill（需要目录下含 SKILL.md）。",
            source := "", destination := "" }, ?_, rfl, rfl⟩
  unfold promote_skill
  rw [h]

theorem promote_invalid_input_witness :
    _resolve_skill_dir (.dir [("ws", .dir [])]) ["ws"]
        { absolute := false, comps := ["missing"] } = none ∧
    ∃ res, promote_skill hashTag "20240101-000001" "T1"
        (.dir [("ws", .dir [])]) ["ws"]
        { absolute := false, comps := ["missing"] }
        { skills := [], promoLog := [] } =
      .ok (res, { skills := [], promoLog := [] }) ∧
      res.success = false ∧ res.action = "invalid_input" :=
  ⟨rfl, promote_invalid_input hashTag "20240101-000001" "T1"
    (.dir [("ws", .dir [])]) ["ws"]
    { absolute := false, comps := ["missing"] }
    { skills := [], promoLog := [] } rfl⟩

/-- C2: when the Pool already holds `skills/<id>` whose manifest hash
differs from the source's, promotion re-targets to the timestamp-suffixed
`skills/<id>-<ts>` (fresh by hypothesis, as `copytree` refuses an existing
destination): the copy is appended, the result reports `copied` with the
suffixed destination, and the existing `skills/<id>` entry is untouched. -/
theorem promote_versions_on_content_change (hash : String → String)
    (ts nowIso : String) (fs : FsNode) (ws : List String) (input : InputPath)
    (pool : Pool) (dirPath : List String) (entries : List (String × FsNode))
    (md oldC : String) (dstNode : FsNode)
    (hres : _resolve_skill_dir fs ws input = some dirPath)
    (hdir : fs.lookup dirPath = some (.dir entries))
    (hmd : entriesFind entries "SKILL.md" = some (.file md))
    (hdst : entriesFind pool.skills (skillIdOf md dirPath) = some dstNode)
    (hold : FsNode.lookup dstNode ["SKILL.md"] = some (.file oldC))
    (hne : hash oldC ≠ hash md)
    (hfresh : entriesFind pool.skills (skillIdOf md dirPath ++ "-" ++ ts)
      = none) :
    ∃ res pool',
      promote_skill hash ts nowIso fs ws input pool = .ok (res, pool') ∧
      res.success = true ∧ res.action = "copied" ∧
      res.destination =
        slashJoin ["skills", skillIdOf md dirPath ++ "-" ++ ts] ∧
      (∃ node, pool'.skills =
        pool.skills ++ [(skillIdOf md dirPath ++ "-" ++ ts, node)]) ∧
      entriesFind pool'.skills (skillIdOf md dirPath) =
        entriesFind pool.skills (skillIdOf md dirPath) := by
  rw [promote_skill_eval hash ts nowIso fs ws input pool dirPath entries md
    hres hdir hmd, hdst]
  have hbeq : (hash oldC == hash md) = false := beq_eq_false_iff_ne.mpr hne
  simp only [hold, hbeq, Bool.false_eq_true, if_false]
  unfold promoteCopy
  rw [hfresh]
  simp only [Option.isSome_none, Bool.false_eq_true, if_false]
  refine ⟨_, _, rfl, rfl, rfl, rfl, ⟨_, rfl⟩, ?_⟩
  exact entriesFind_append_of_some hdst

theorem promote_versions_on_content_change_witness :
    ∃ res pool',
      promote_skill hashTag "20240101-000001" "T1"
        (.dir [("ws", .dir [("sk", .dir [("SKILL.md",
          .file "---\nname: alpha\n---\nv2")])])]) ["ws"]
        { absolute := false, comps := ["sk"] }
        { skills := [("alpha", .dir [("SKILL.md",
            .file "---\nname: alpha\n---\nv1")])], promoLog := [] }
        = .ok (res, pool') ∧
      res.success = true ∧ res.action = "copied" ∧
      res.destination = slashJoin ["skills",
        skillIdOf "---\nname: alpha\n---\nv2" ["ws", "sk"] ++ "-" ++
          "20240101-000001"] ∧
      (∃ node, pool'.skills =
        [("alpha", .dir [("SKILL.md", .file "---\nname: alpha\n---\nv1")])] ++
          [(skillIdOf "---\nname: alpha\n---\nv2" ["ws", "sk"] ++ "-" ++
            "20240101-000001", node)]) ∧
      entriesFind pool'.skills (skillIdOf "---\nname: alpha\n---\nv2"
          ["ws", "sk"]) =
        entriesFind [("alpha", .dir [("SKILL.md",
          .file "---\nname: alpha\n---\nv1")])]
          (skillIdOf "---\nname: alpha\n---\nv2" ["ws", "sk"]) :=
  promote_versions_on_content_change hashTag "20240101-000001" "T1"
    (.dir [("ws", .dir [("sk", .dir [("SKILL.md",
      .file "---\nname: alpha\n---\nv2")])])]) ["ws"]
    { absolute := false, comps := ["sk"] }
    { skills := [("alpha", .dir [("SKILL.md",
        .file "---\nname: alpha\n---\nv1")])], promoLog := [] }
    ["ws", "sk"] [("SKILL.md", .file "---\nname: alpha\n---\nv2")]
    "---\nname: alpha\n---\nv2" "---\nname: alpha\n---\nv1"
    (.dir [("SKILL.md", .file "---\nname: alpha\n---\nv1")])
    rfl rfl rfl rfl rfl (by decide) rfl

/-- C1 (amended): provided the Pool does not already hold a directory at
`skills/<id>` with a *differing* manifest hash (it is absent, or its
manifest hashes identically), promoting a skill directory and then
promoting the same unmodified directory again makes the second call return
success with action `skip_same_hash`, copy nothing (the Pool after the
second call is exactly the Pool after the first), and leave exactly one
directory named `<id>` under `skills/`. -/
theorem promote_idempotent_when_no_conflicting_version
    (hash : String → String) (ts1 now1 ts2 now2 : String) (fs : FsNode)
    (ws : List String) (input : InputPath) (pool0 : Pool)
    (dirPath : List String) (entries : List (String × FsNode)) (md : String)
    (hres : _resolve_skill_dir fs ws input = some dirPath)
    (hdir : fs.lookup dirPath = some (.dir entries))
    (hmd : entriesFind entries "SKILL.md" = some (.file md))
    (hnodup : (pool0.skills.map Prod.fst).Nodup)
    (hpre : entriesFind pool0.skills (skillIdOf md dirPath) = none ∨
      ∃ n c, entriesFind pool0.skills (skillIdOf md dirPath) = some n ∧
        FsNode.lookup n ["SKILL.md"] = some (.file c) ∧ hash c = hash md) :
    ∃ res1 pool1 res2,
      promote_skill hash ts1 now1 fs ws input pool0 = .ok (res1, pool1) ∧
      promote_skill hash ts2 now2 fs ws input pool1 = .ok (res2, pool1) ∧
      res2.success = true ∧ res2.action = "skip_same_hash" ∧
      (pool1.skills.map Prod.fst).count (skillIdOf md dirPath) = 1 := by
  rcases hpre with hnone | ⟨n, c, hdst, hold, hhash⟩
  · -- `skills/<id>` absent: the first call copies, the second skips.
    have e1 : promote_skill hash ts1 now1 fs ws input pool0 =
        .ok ({ success := true, action := "copied", message := "升格成功。",
               source := slashJoin dirPath,
               destination := slashJoin ["skills", skillIdOf md dirPath] },
             { skills := pool0.skills ++ [(skillIdOf md dirPath,
                 .dir (setEntry entries ".skillctl-origin.json"
                   (.file (originJson (slashJoin dirPath) (slashJoin ws)
                     now1 (hash md)))))],
               promoLog := pool0.promoLog ++
                 [{ action := "promote", source := slashJoin dirPath,
                    destination := slashJoin ["skills", skillIdOf md dirPath],
                    skill_id := skillIdOf md dirPath, sha256 := hash md,
                    time := now1 }] }) := by
      rw [promote_skill_eval hash ts1 now1 fs ws input pool0 dirPath entries
        md hres hdir hmd, hnone]
      unfold promoteCopy
      rw [hnone]
      rfl
    have hfind1 : entriesFind
        (pool0.skills ++ [(skillIdOf md dirPath,
          .dir (setEntry entries ".skillctl-origin.json"
            (.file (originJson (slashJoin dirPath) (slashJoin ws)
              now1 (hash md)))))]) (skillIdOf md dirPath)
        = some (.dir (setEntry entries ".skillctl-origin.json"
            (.file (originJson (slashJoin dirPath) (slashJoin ws)
              now1 (hash md))))) := by
      rw [entriesFind_append_of_none hnone]
      exact entriesFind_singleton_self _ _
    have hsetmd : entriesFind (setEntry entries ".skillctl-origin.json"
        (.file (originJson (slashJoin dirPath) (slashJoin ws)
          now1 (hash md)))) "SKILL.md" = some (.file md) := by
      rw [entriesFind_setEntry_ne _ (by decide)]
      exact hmd
    have hlook : FsNode.lookup (.dir (setEntry entries ".skillctl-origin.json"
        (.file (originJson (slashJoin dirPath) (slashJoin ws)
          now1 (hash md))))) ["SKILL.md"] = some (.file md) := by
      show (match entriesFind (setEntry entries ".skillctl-origin.json"
          (.file (originJson (slashJoin dirPath) (slashJoin ws)
            now1 (hash md)))) "SKILL.md" with
        | some child => FsNode.lookup child []
        | none => none) = some (.file md)
      rw [hsetmd]
      rfl
    have e2 : promote_skill hash ts2 now2 fs ws input
        { skills := pool0.skills ++ [(skillIdOf md dirPath,
            .dir (setEntry entries ".skillctl-origin.json"
              (.file (originJson (slashJoin dirPath) (slashJoin ws)
                now1 (hash md)))))],
          promoLog := pool0.promoLog ++
            [{ action := "promote", source := slashJoin dirPath,
               destination := slashJoin ["skills", skillIdOf md dirPath],
               skill_id := skillIdOf md dirPath, sha256 := hash md,
               time := now1 }] } =
        .ok ({ success := true, action := "skip_same_hash",
               message := "目标已存在相同版本，跳过。",
               source := slashJoin dirPath,
               destination := slashJoin ["skills", skillIdOf md dirPath] },
             { skills := pool0.skills ++ [(skillIdOf md dirPath,
                 .dir (setEntry entries ".skillctl-origin.json"
                   (.file (originJson (slashJoin dirPath) (slashJoin ws)
                     now1 (hash md)))))],
               promoLog := pool0.promoLog ++
                 [{ action := "promote", source := slashJoin dirPath,
                    destination := slashJoin ["skills", skillIdOf md dirPath],
                    skill_id := skillIdOf md dirPath, sha256 := hash md,
                    time := now1 }] }) := by
      rw [promote_skill_eval hash ts2 now2 fs ws input _ dirPath entries
        md hres hdir hmd]
      simp only [hfind1, hlook, beq_self_eq_true, if_true]
    refine ⟨_, _, _, e1, e2, rfl, rfl, ?_⟩
    have hnotmem : skillIdOf md dirPath ∉ pool0.skills.map Prod.fst :=
      entriesFind_eq_none_iff.mp hnone
    simp [List.count_append, List.count_eq_zero.mpr hnotmem]
  · -- `skills/<id>` present with an identical hash: both calls skip.
    have hbeq : (hash c == hash md) = true := beq_iff_eq.mpr hhash
    have e1 : ∀ ts now, promote_skill hash ts now fs ws input pool0 =
        .ok ({ success := true, action := "skip_same_hash",
               message := "目标已存在相同版本，跳过。",
               source := slashJoin dirPath,
               destination := slashJoin ["skills", skillIdOf md dirPath] },
             pool0) := by
      intro ts now
      rw [promote_skill_eval hash ts now fs ws input pool0 dirPath entries
        md hres hdir hmd, hdst]
      simp only [hold, hbeq, if_true]
    refine ⟨_, _, _, e1 ts1 now1, e1 ts2 now2, rfl, rfl, ?_⟩
    exact List.count_eq_one_of_mem hnodup (mem_keys_of_entriesFind_some hdst)

theorem promote_idempotent_when_no_conflicting_version_witness :
    ∃ res1 pool1 res2,
      promote_skill hashTag "20240101-000001" "T1"
        (.dir [("ws", .dir [("sk", .dir [("SKILL.md",
          .file "---\nname: alpha\n---\nbody")])])]) ["ws"]
        { absolute := false, comps := ["sk"] }
        { skills := [], promoLog := [] } = .ok (res1, pool1) ∧
      promote_skill hashTag "20240101-000002" "T2"
        (.dir [("ws", .dir [("sk", .dir [("SKILL.md",
          .file "---\nname: alpha\n---\nbody")])])]) ["ws"]
        { absolute := false, comps := ["sk"] } pool1 = .ok (res2, pool1) ∧
      res2.success = true ∧ res2.action = "skip_same_hash" ∧
      (pool1.skills.map Prod.fst).count
        (skillIdOf "---\nname: alpha\n---\nbody" ["ws", "sk"]) = 1 :=
  promote_idempotent_when_no_conflicting_version hashTag
    "20240101-000001" "T1" "20240101-000002" "T2"
    (.dir [("ws", .dir [("sk", .dir [("SKILL.md",
      .file "---\nname: alpha\n---\nbody")])])]) ["ws"]
    { absolute := false, comps := ["sk"] }
    { skills := [], promoLog := [] }
    ["ws", "sk"] [("SKILL.md", .file "---\nname: alpha\n---\nbody")]
    "---\nname: alpha\n---\nbody"
    rfl rfl rfl (by decide) (Or.inl rfl)

/-- The filesystem of the C1 counterexample: workspace `ws` holding skill
directory `sk` whose manifest (named `alpha`) has content `v2`. -/
def c1Fs : FsNode :=
  .dir [("ws", .dir [("sk", .dir [("SKILL.md",
    .file "---\nname: alpha\n---\nv2")])])]

/-- The input of the C1 counterexample (workspace-relative `sk`). -/
def c1Input : InputPath := { absolute := false, comps := ["sk"] }

/-- A Pool that already holds `skills/alpha` with *different* manifest
content `v1`. -/
def c1Pool0 : Pool :=
  { skills := [("alpha", .dir [("SKILL.md",
      .file "---\nname: alpha\n---\nv1")])], promoLog := [] }

/-- Pool state after the first promotion of the counterexample. -/
def c1Pool1 : Pool :=
  match promote_skill hashTag "20240101-000001" "T1" c1Fs ["ws"] c1Input
      c1Pool0 with
  | .ok p => p.2
  | .error _ => c1Pool0

/-- Pool state after the second promotion of the counterexample. -/
def c1Pool2 : Pool :=
  match promote_skill hashTag "20240101-000002" "T2" c1Fs ["ws"] c1Input
      c1Pool1 with
  | .ok p => p.2
  | .error _ => c1Pool1

/-- C1 counterexample: with `skills/alpha` already holding a *differing*
version, promoting the same unmodified skill directory twice re-versions on
*both* calls: the second call returns `copied` (not `skip_same_hash`) and
adds a third directory, so the Pool after the second call differs from the
Pool after the first. -/
theorem promote_idempotent_cex :
    (promote_skill hashTag "20240101-000001" "T1" c1Fs ["ws"] c1Input
        c1Pool0).map (fun p => p.1.action) = .ok "copied" ∧
    (promote_skill hashTag "20240101-000002" "T2" c1Fs ["ws"] c1Input
        c1Pool1).map (fun p => p.1.action) = .ok "copied" ∧
    ("copied" : String) ≠ "skip_same_hash" ∧
    c1Pool1.skills.map Prod.fst = ["alpha", "alpha-20240101-000001"] ∧
    c1Pool2.skills.map Prod.fst =
      ["alpha", "alpha-20240101-000001", "alpha-20240101-000002"] :=
  ⟨rfl, rfl, by decide, rfl, rfl⟩
